import Mathlib

/-!
# duplicates.c : a shallow embedding

The program walks the directories named on its command line, hashes every
non-directory entry it meets and keeps a table from digest to the first path
seen with that digest.  The embedding follows `src/duplicates.c` function by
function (`usage`, `is_directory`, `check_file`, `check_directory`, `main`).

* The file system and the hashing primitive are read-only oracles
  (`Env`): the program only ever calls `opendir`/`readdir`, `stat` and
  `hash_from_file`, always with the path string it was handed.  The
  environment does not change while the program runs.
* Process state is the checksum table plus what has been written to the two
  output streams (`State`).
* `exit` is an outcome of its own (`Outcome.exit`), so that "the process
  terminates here" is visible in a result.
* `check_directory` recurses without bound in C; the embedding takes a fuel
  argument that bounds the recursion depth and reports `Outcome.out_of_fuel`
  when it is used up.
* `size_t` is 64 bits wide and `int` 32 bits wide (LP64).
* The oracles answer by the path alone: a recursion that runs out of open
  directory streams or of stack is not modelled, and a scan that never ends
  has no result at any fuel.
-/

namespace Duplicates

/-! ## Data model -/

/-- The `Options` structure of the source. -/
structure Options where
  count : Bool
  quiet : Bool
deriving DecidableEq

/-- The checksum table: entries `(hexdigest, path)` in insertion order. -/
abbrev Table := List (String × String)

/-- Modelled from the spec: `table.h` is absent from the sources.  A table is
created empty before traversal begins. -/
def table_create : Table := []

/-- Modelled from the spec: `table.h` is absent from the sources.
`lookup(digest)` returns the previously registered path for the digest, or
absent if none exists; a pure read. -/
def table_search (t : Table) (key : String) : Option String :=
  List.lookup key t

/-- Modelled from the spec: `table.h` is absent from the sources.
`insert(digest, path)` registers the path for the digest; the table does not
overwrite an entry that is already there (a lookup finds the oldest entry). -/
def table_insert (t : Table) (key : String) (value : String) : Table :=
  t ++ [(key, value)]

/-- Modelled from the spec: `macros.h` is absent from the sources.  `streq`
compares two strings for equality. -/
def streq (a b : String) : Bool := a == b

/-- The environment of one run.  `opendir p` is the list of entry names that
`readdir` yields for `p` in enumeration order (`none`: `opendir` returned
`NULL`); `stat p` is `none` when `stat` fails and otherwise tells whether
`S_ISDIR` holds; `hash_from_file p` (declared in the absent `hash.h`) is
`none` when hashing fails and otherwise the hex digest of the content. -/
structure Env where
  opendir : String → Option (List String)
  stat : String → Option Bool
  hash_from_file : String → Option String

/-- Mutable process state: the table and the text written so far. -/
structure State where
  checksums : Table
  stdout : List String
  stderr : List String
deriving DecidableEq

/-- How a process ended: its exit status and what it wrote. -/
structure Halt where
  status : Nat
  stdout : List String
  stderr : List String
deriving DecidableEq

/-- Result of running a C function: it returns a value, or the process
exits inside it, or the recursion budget of the embedding is used up. -/
inductive Outcome (α : Type) where
  | ret (value : α) (st : State)
  | exit (h : Halt)
  | out_of_fuel
deriving DecidableEq

/-- The value of `EXIT_SUCCESS` in `stdlib.h`. -/
def EXIT_SUCCESS : Nat := 0

/-- The value of `EXIT_FAILURE` in `stdlib.h`. -/
def EXIT_FAILURE : Nat := 1

/-- One more than `SIZE_MAX`. -/
def SIZE_MODULUS : Nat := 2 ^ 64

/-- Conversion of a `size_t` to `int` (`int dups_count = check_directory(..)`):
the low 32 bits, read as a signed number. -/
def size_t_to_int (n : Nat) : Int :=
  if n % 2 ^ 32 < 2 ^ 31 then ((n % 2 ^ 32 : Nat) : Int) else ((n % 2 ^ 32 : Nat) : Int) - 2 ^ 32

/-- Addition on `int`, wrapping to 32 bits. -/
def int_add (a b : Int) : Int :=
  if (a + b) % 2 ^ 32 < 2 ^ 31 then (a + b) % 2 ^ 32 else (a + b) % 2 ^ 32 - 2 ^ 32

/-! ## Functions of the source -/

/-- `usage(status)`: three lines on standard error, then `exit(status)`. -/
def usage {α : Type} (PROGRAM_NAME : String) (status : Nat) (st : State) : Outcome α :=
  .exit ⟨status, st.stdout, st.stderr ++
    ["Usage: " ++ PROGRAM_NAME ++ " paths...\n",
     "    -c     Only display total number of duplicates\n",
     "    -q     Do not write anything (exit with 0 if duplicate found)\n"]⟩

/-- `is_directory(path)`: `exit(1)` when `stat` fails, else `S_ISDIR`. -/
def is_directory (env : Env) (path : String) (st : State) : Outcome Bool :=
  match env.stat path with
  | none => .exit ⟨1, st.stdout, st.stderr⟩
  | some isdir => if !isdir then .ret false st else .ret true st

/-- `check_file(path, checksums, options)`. -/
def check_file (env : Env) (path : String) (st : State) (options : Options) : Outcome Nat :=
  match env.hash_from_file path with
  | none => .ret 0 st
  | some hexdigest =>
    match table_search st.checksums hexdigest with
    | some value =>
      if options.quiet then
        .exit ⟨1, st.stdout, st.stderr⟩
      else if !options.count then
        .ret 1 { st with stdout := st.stdout ++ [value] }
      else
        .ret 1 st
    | none =>
      .ret 0 { st with checksums := table_insert st.checksums hexdigest path }

/-- The `while ((de = readdir(dr)) != NULL)` loop of `check_directory`, over
the entries still to be read; `recur` is the recursive call
`check_directory(de->d_name, checksums, options)`. -/
def readdir_loop (env : Env) (recur : String → State → Outcome Nat) (options : Options) :
    List String → Nat → State → Outcome Nat
  | [], dups_count, st => .ret dups_count st
  | d_name :: rest, dups_count, st =>
    match is_directory env d_name st with
    | .exit h => .exit h
    | .out_of_fuel => .out_of_fuel
    | .ret true st1 =>
      if streq d_name "." || streq d_name ".." then
        readdir_loop env recur options rest dups_count st1
      else
        match recur d_name st1 with
        | .exit h => .exit h
        | .out_of_fuel => .out_of_fuel
        | .ret _ st2 => readdir_loop env recur options rest dups_count st2
    | .ret false st1 =>
      match check_file env d_name st1 options with
      | .exit h => .exit h
      | .out_of_fuel => .out_of_fuel
      | .ret n st2 =>
        readdir_loop env recur options rest ((dups_count + n) % SIZE_MODULUS) st2

/-- `check_directory(root, checksums, options)`; `fuel` bounds the depth of
the recursion. -/
def check_directory (env : Env) : Nat → String → State → Options → Outcome Nat
  | 0, _, _, _ => .out_of_fuel
  | fuel + 1, root, st, options =>
    match env.opendir root with
    | none => .ret 0 st
    | some entries =>
      readdir_loop env (fun d_name st1 => check_directory env fuel d_name st1 options)
        options entries 0 st

/-- The flag loop of `main`, `for (int i = 1; i < length; i++)`, over the
arguments it still has to look at; returns `(carg, qarg, count)`. -/
def flag_loop (PROGRAM_NAME : String) (st : State) :
    List String → Bool → Bool → Nat → Outcome (Bool × Bool × Nat)
  | [], carg, qarg, count => .ret (carg, qarg, count) st
  | a :: rest, carg, qarg, count =>
    if streq a "-c" then
      flag_loop PROGRAM_NAME st rest true qarg (count + 1)
    else if streq a "-q" then
      flag_loop PROGRAM_NAME st rest carg true (count + 1)
    else if streq a "-h" then
      usage PROGRAM_NAME 0 st
    else
      flag_loop PROGRAM_NAME st rest carg qarg count

/-- The array `paths` that `main` fills: `length = argc - 1`, the flag loop
runs over `argv[1] .. argv[length - 1]`, then `length -= count` and
`paths[j] = argv[j + 1]` for `j < length`.  `args` is `argv[1 ..]`. -/
def main_paths (args : List String) (count : Nat) : List String :=
  args.take (args.length - count)

/-- The loop `for (k = 0; k < length; k++)` of `main` over the paths still to
be checked, with the running `total_count`. -/
def path_loop (env : Env) (fuel : Nat) (options : Options) :
    List String → Int → State → Outcome Int
  | [], total_count, st => .ret total_count st
  | p :: rest, total_count, st =>
    match check_directory env fuel p st options with
    | .exit h => .exit h
    | .out_of_fuel => .out_of_fuel
    | .ret dups_count st1 =>
      path_loop env fuel options rest (int_add total_count (size_t_to_int dups_count)) st1

/-- `main(argc, argv)` with `argv[0] = PROGRAM_NAME` and `argv[1 ..] = args`.
The result is how the process ends, or `none` when the fuel given to each
`check_directory` call does not suffice. -/
def main (env : Env) (fuel : Nat) (PROGRAM_NAME : String) (args : List String) : Option Halt :=
  match flag_loop PROGRAM_NAME ⟨[], [], []⟩ (args.take (args.length - 1)) false false 0 with
  | .exit h => some h
  | .out_of_fuel => none
  | .ret (carg, qarg, count) st =>
    let options : Options := ⟨carg, qarg⟩
    match path_loop env fuel options (main_paths args count) 0
        { st with checksums := table_create } with
    | .exit h => some h
    | .out_of_fuel => none
    | .ret total_count st1 =>
      if options.count && !options.quiet then
        some ⟨EXIT_SUCCESS, st1.stdout ++ [toString total_count], st1.stderr⟩
      else
        some ⟨EXIT_FAILURE, st1.stdout, st1.stderr⟩


/-! ## Reference definitions used to state the properties -/

/-- A sequence of `check_file` calls on the same table, one path after the
other, as a caller issues them; the value is the list of the results. -/
def check_file_seq (env : Env) (options : Options) :
    List String → State → Outcome (List Nat)
  | [], st => .ret [] st
  | p :: rest, st =>
    match check_file env p st options with
    | .exit h => .exit h
    | .out_of_fuel => .out_of_fuel
    | .ret n st1 =>
      match check_file_seq env options rest st1 with
      | .exit h => .exit h
      | .out_of_fuel => .out_of_fuel
      | .ret ns st2 => .ret (n :: ns) st2

/-- The first path of a sequence whose content hashes to the digest `d`. -/
def first_with_digest (env : Env) (paths : List String) (d : String) : Option String :=
  paths.find? (fun p => env.hash_from_file p == some d)

/-- The table holds at most one entry per digest, and the path it gives for a
digest is the first of the paths `seen` that produced this digest. -/
def FirstSeen (env : Env) (seen : List String) (t : Table) : Prop :=
  (t.map Prod.fst).Nodup ∧ ∀ d, table_search t d = first_with_digest env seen d

/-- The results of `check_file` over the direct non-directory entries of a
directory, in enumeration order, written from the description of what
`check_directory` returns: a non-directory entry is classified and its result
recorded; a subdirectory other than "." and ".." is descended into (`descend`)
for its effect on the table and the output, and its result is dropped; "."
and ".." are passed over; an entry that cannot be statted ends the process. -/
def direct_file_results (env : Env) (descend : String → State → Outcome Nat)
    (options : Options) : List String → State → Outcome (List Nat)
  | [], st => .ret [] st
  | e :: rest, st =>
    match env.stat e with
    | none => .exit ⟨1, st.stdout, st.stderr⟩
    | some false =>
      match check_file env e st options with
      | .exit h => .exit h
      | .out_of_fuel => .out_of_fuel
      | .ret k st1 =>
        match direct_file_results env descend options rest st1 with
        | .exit h => .exit h
        | .out_of_fuel => .out_of_fuel
        | .ret ks st2 => .ret (k :: ks) st2
    | some true =>
      if e = "." ∨ e = ".." then
        direct_file_results env descend options rest st
      else
        match descend e st with
        | .exit h => .exit h
        | .out_of_fuel => .out_of_fuel
        | .ret _ st1 => direct_file_results env descend options rest st1

/-- The path list that the interface description promises: the arguments
after `argv[0]` that are not the flags `-c` or `-q`, in their order. -/
def claimed_paths (args : List String) : List String :=
  args.filter (fun a => a != "-c" && a != "-q")

/-- `Reaches env options b st fuel root st0`: the scan `check_directory(root)`
started in state `st0` hands the entry `b` to `check_file` in state `st`.
Either `b` is a direct non-directory entry of `root` and the loop over the
entries before it has returned with state `st` (`direct`), or the loop over the
entries before a subdirectory `sub` has returned and the scan of `sub`, which
the loop descends into, hands `b` over (`nested`). -/
inductive Reaches (env : Env) (options : Options) (b : String) (st : State) :
    Nat → String → State → Prop where
  | direct (fuel : Nat) (root : String) (pre rest : List String) (st0 : State) (n : Nat) :
      env.opendir root = some (pre ++ b :: rest) →
      env.stat b = some false →
      readdir_loop env (fun d_name s => check_directory env fuel d_name s options)
        options pre 0 st0 = .ret n st →
      Reaches env options b st (fuel + 1) root st0
  | nested (fuel : Nat) (root : String) (pre rest : List String) (sub : String)
      (st0 s : State) (n : Nat) :
      env.opendir root = some (pre ++ sub :: rest) →
      env.stat sub = some true → sub ≠ "." → sub ≠ ".." →
      readdir_loop env (fun d_name s1 => check_directory env fuel d_name s1 options)
        options pre 0 st0 = .ret n s →
      Reaches env options b st fuel sub s →
      Reaches env options b st (fuel + 1) root st0

/-! ## Concrete environments

Every path is resolved against the working directory of the process, as the
system calls do; a directory lists "." and ".." first. -/

/-- Hex digest (MD5) of the content `hello`. -/
def MD5_hello : String := "5d41402abc4b2a76b9719d911017c592"

/-- Hex digest (MD5) of the content `world`. -/
def MD5_world : String := "7d793037a0760186574b0282f2f435e7"

/-- The working directory holds `dirA`, and `dirA` holds `x.txt` = hello,
`y.txt` = hello, `z.txt` = world.  The bare names `x.txt`, `y.txt`, `z.txt`
do not exist in the working directory. -/
def env_parent : Env where
  opendir p :=
    if p = "." then some [".", "..", "dirA"]
    else if p = "dirA" then some [".", "..", "x.txt", "y.txt", "z.txt"]
    else none
  stat p :=
    if p = "." ∨ p = ".." ∨ p = "dirA" then some true
    else if p = "dirA/x.txt" ∨ p = "dirA/y.txt" ∨ p = "dirA/z.txt" then some false
    else none
  hash_from_file p :=
    if p = "dirA/x.txt" ∨ p = "dirA/y.txt" then some MD5_hello
    else if p = "dirA/z.txt" then some MD5_world
    else none

/-- The same three files, with the process started inside `dirA`: the working
directory holds `x.txt` = hello, `y.txt` = hello, `z.txt` = world. -/
def env_inside : Env where
  opendir p := if p = "." then some [".", "..", "x.txt", "y.txt", "z.txt"] else none
  stat p :=
    if p = "." ∨ p = ".." then some true
    else if p = "x.txt" ∨ p = "y.txt" ∨ p = "z.txt" then some false
    else none
  hash_from_file p :=
    if p = "x.txt" ∨ p = "y.txt" then some MD5_hello
    else if p = "z.txt" then some MD5_world
    else none

/-- The working directory holds `a` = hello, `b` = world and the directory
`sub`; `sub` holds `a` = hello and `b` = world.  Two files share each content.
The names `a` and `b` read inside `sub` resolve to the files of the working
directory. -/
def env_nested : Env where
  opendir p :=
    if p = "." then some [".", "..", "a", "b", "sub"]
    else if p = "sub" then some [".", "..", "a", "b"]
    else none
  stat p :=
    if p = "." ∨ p = ".." ∨ p = "sub" then some true
    else if p = "a" ∨ p = "b" ∨ p = "sub/a" ∨ p = "sub/b" then some false
    else none
  hash_from_file p :=
    if p = "a" ∨ p = "sub/a" then some MD5_hello
    else if p = "b" ∨ p = "sub/b" then some MD5_world
    else none

/-- The working directory holds two files of different content, `p.txt` =
hello and `q.txt` = world. -/
def env_distinct : Env where
  opendir p := if p = "." then some [".", "..", "p.txt", "q.txt"] else none
  stat p :=
    if p = "." ∨ p = ".." then some true
    else if p = "p.txt" ∨ p = "q.txt" then some false
    else none
  hash_from_file p :=
    if p = "p.txt" then some MD5_hello
    else if p = "q.txt" then some MD5_world
    else none

/-- The working directory holds `x.txt` = hello and `y.txt` = hello; the
enumeration also yields `gone`, an entry removed before it is statted. -/
def env_vanish : Env where
  opendir p := if p = "." then some [".", "..", "gone", "x.txt", "y.txt"] else none
  stat p :=
    if p = "." ∨ p = ".." then some true
    else if p = "x.txt" ∨ p = "y.txt" then some false
    else none
  hash_from_file p := if p = "x.txt" ∨ p = "y.txt" then some MD5_hello else none

/-- The working directory holds `locked`, a regular file that cannot be read,
then `x.txt` = hello and `y.txt` = hello. -/
def env_locked : Env where
  opendir p := if p = "." then some [".", "..", "locked", "x.txt", "y.txt"] else none
  stat p :=
    if p = "." ∨ p = ".." then some true
    else if p = "locked" ∨ p = "x.txt" ∨ p = "y.txt" then some false
    else none
  hash_from_file p := if p = "x.txt" ∨ p = "y.txt" then some MD5_hello else none


/-! ## Lemmas on the table -/

/-- Looking a digest up after an insertion: an older entry wins, else the new
entry answers for its own key. -/
theorem table_search_insert (t : Table) (key value d : String) :
    table_search (table_insert t key value) d
      = (table_search t d).or (if d = key then some value else none) := by
  unfold table_search table_insert
  rw [List.lookup_append]
  congr 1
  by_cases h : d = key
  · subst h; simp
  · have hb : (d == key) = false := by simpa using h
    simp [List.lookup_cons, h, hb]

/-- A digest the table has no answer for is not among its keys. -/
theorem not_mem_keys_of_search_none (t : Table) (d : String)
    (h : table_search t d = none) : d ∉ t.map Prod.fst := by
  unfold table_search at h
  rw [List.lookup_eq_none_iff] at h
  intro hm
  obtain ⟨p, hp, rfl⟩ := List.mem_map.mp hm
  simpa using h p hp

/-- Extending the sequence of paths by one path at its end. -/
theorem first_with_digest_snoc (env : Env) (seen : List String) (p d : String) :
    first_with_digest env (seen ++ [p]) d
      = (first_with_digest env seen d).or
          (if env.hash_from_file p = some d then some p else none) := by
  unfold first_with_digest
  rw [List.find?_append]
  congr 1
  by_cases h : env.hash_from_file p = some d <;> simp [h]

/-! ## Lemmas on `check_file` -/

/-- With `quiet` unset `check_file` always returns, and it returns 0 or 1. -/
theorem check_file_returns (env : Env) (p : String) (st : State) (count : Bool) :
    ∃ k st1, check_file env p st ⟨count, false⟩ = .ret k st1 ∧ k ≤ 1 := by
  cases hd : env.hash_from_file p with
  | none => exact ⟨0, st, by simp [check_file, hd], by omega⟩
  | some d =>
    cases hs : table_search st.checksums d with
    | none =>
      exact ⟨0, ⟨table_insert st.checksums d p, st.stdout, st.stderr⟩,
        by simp [check_file, hd, hs], by omega⟩
    | some v =>
      cases count
      · exact ⟨1, ⟨st.checksums, st.stdout ++ [v], st.stderr⟩,
          by simp [check_file, hd, hs], le_refl _⟩
      · exact ⟨1, st, by simp [check_file, hd, hs], le_refl _⟩

/-- One call of `check_file` with `quiet` unset keeps the first-seen
invariant, the classified path being appended to the paths seen. -/
theorem check_file_keeps_first_seen (env : Env) (count : Bool) (seen : List String)
    (p : String) (st : State) (h : FirstSeen env seen st.checksums) :
    ∃ n st1, check_file env p st ⟨count, false⟩ = .ret n st1
      ∧ FirstSeen env (seen ++ [p]) st1.checksums := by
  obtain ⟨hnd, hfs⟩ := h
  cases hd : env.hash_from_file p with
  | none =>
    refine ⟨0, st, by simp [check_file, hd], hnd, fun d => ?_⟩
    rw [first_with_digest_snoc, hd, hfs d]
    simp
  | some d0 =>
    cases hs : table_search st.checksums d0 with
    | some v =>
      have key : ∀ d, table_search st.checksums d = first_with_digest env (seen ++ [p]) d := by
        intro d
        rw [first_with_digest_snoc, hd, ← hfs d]
        by_cases hdd : d0 = d
        · subst hdd; simp [hs]
        · simp [hdd]
      cases count
      · exact ⟨1, ⟨st.checksums, st.stdout ++ [v], st.stderr⟩,
          by simp [check_file, hd, hs], hnd, key⟩
      · exact ⟨1, st, by simp [check_file, hd, hs], hnd, key⟩
    | none =>
      refine ⟨0, ⟨table_insert st.checksums d0 p, st.stdout, st.stderr⟩,
        by simp [check_file, hd, hs], ?_, fun d => ?_⟩
      · simp only [table_insert, List.map_append, List.map_cons, List.map_nil]
        rw [List.nodup_append]
        refine ⟨hnd, by simp, ?_⟩
        intro a ha hb
        simp only [List.mem_singleton] at hb
        subst hb
        exact not_mem_keys_of_search_none _ _ hs ha
      · simp only
        rw [table_search_insert, first_with_digest_snoc, hd, hfs d]
        by_cases hdd : d = d0
        · subst hdd; simp
        · have : ¬ d0 = d := fun h => hdd h.symm
          simp [hdd, this]

/-- A sequence of calls with `quiet` unset returns and keeps the invariant. -/
theorem check_file_seq_first_seen (env : Env) (count : Bool) (paths seen : List String)
    (st : State) (h : FirstSeen env seen st.checksums) :
    ∃ ns st1, check_file_seq env ⟨count, false⟩ paths st = .ret ns st1
      ∧ FirstSeen env (seen ++ paths) st1.checksums := by
  induction paths generalizing seen st with
  | nil => exact ⟨[], st, rfl, by simpa using h⟩
  | cons p rest ih =>
    obtain ⟨n, st1, h1, hf1⟩ := check_file_keeps_first_seen env count seen p st h
    obtain ⟨ns, st2, h2, hf2⟩ := ih (seen ++ [p]) st1 hf1
    refine ⟨n :: ns, st2, ?_, by simpa using hf2⟩
    simp [check_file_seq, h1, h2]

/-! ## Lemmas on `check_directory` -/

/-- The loop of `check_directory` with running count `acc` returns `acc` plus
the sum of the recorded results, reduced as a `size_t`; it exits or runs out
of fuel exactly when the reference traversal does. -/
theorem readdir_loop_eq_results (env : Env) (recur : String → State → Outcome Nat)
    (options : Options) (entries : List String) (acc : Nat) (st : State)
    (hacc : acc < SIZE_MODULUS) :
    readdir_loop env recur options entries acc st
      = match direct_file_results env recur options entries st with
        | .ret ks st1 => .ret ((acc + ks.sum) % SIZE_MODULUS) st1
        | .exit h => .exit h
        | .out_of_fuel => .out_of_fuel := by
  induction entries generalizing acc st with
  | nil => simp [readdir_loop, direct_file_results, Nat.mod_eq_of_lt hacc]
  | cons e rest ih =>
    cases hs : env.stat e with
    | none => simp [readdir_loop, direct_file_results, is_directory, hs]
    | some isdir =>
      cases isdir
      · cases hc : check_file env e st options with
        | exit h => simp [readdir_loop, direct_file_results, is_directory, hs, hc]
        | out_of_fuel => simp [readdir_loop, direct_file_results, is_directory, hs, hc]
        | ret k st1 =>
          have hlt : (acc + k) % SIZE_MODULUS < SIZE_MODULUS :=
            Nat.mod_lt _ (by unfold SIZE_MODULUS; positivity)
          cases hr : direct_file_results env recur options rest st1 with
          | exit h =>
            simp [readdir_loop, direct_file_results, is_directory, hs, hc, hr, ih _ st1 hlt]
          | out_of_fuel =>
            simp [readdir_loop, direct_file_results, is_directory, hs, hc, hr, ih _ st1 hlt]
          | ret ks st2 =>
            simp [readdir_loop, direct_file_results, is_directory, hs, hc, hr, ih _ st1 hlt,
              Nat.add_assoc]
      · by_cases hdot : e = "." ∨ e = ".."
        · have hb : (streq e "." || streq e "..") = true := by
            simpa [streq] using hdot
          simp [readdir_loop, direct_file_results, is_directory, hs, hb, hdot, ih acc st hacc]
        · have hb : (streq e "." || streq e "..") = false := by
            simpa [streq] using hdot
          cases hr : recur e st with
          | exit h =>
            simp [readdir_loop, direct_file_results, is_directory, hs, hb, hdot, hr]
          | out_of_fuel =>
            simp [readdir_loop, direct_file_results, is_directory, hs, hb, hdot, hr]
          | ret k st1 =>
            simp [readdir_loop, direct_file_results, is_directory, hs, hb, hdot, hr,
              ih acc st1 hacc]

/-- With `quiet` unset the traversal of the entries returns as soon as every
entry can be statted and every descent into a subdirectory returns; it records
one result, 0 or 1, per non-directory entry. -/
theorem direct_file_results_returns (env : Env) (recur : String → State → Outcome Nat)
    (count : Bool) (entries : List String) (st : State)
    (hstat : ∀ e ∈ entries, env.stat e ≠ none)
    (hsub : ∀ e ∈ entries, env.stat e = some true → e ≠ "." → e ≠ ".." →
      ∀ s, ∃ k s1, recur e s = .ret k s1) :
    ∃ ks st1, direct_file_results env recur ⟨count, false⟩ entries st = .ret ks st1
      ∧ (∀ k ∈ ks, k ≤ 1)
      ∧ ks.length = (entries.filter (fun e => env.stat e == some false)).length := by
  induction entries generalizing st with
  | nil => exact ⟨[], st, rfl, by simp, by simp⟩
  | cons e rest ih =>
    have hstat1 : ∀ x ∈ rest, env.stat x ≠ none :=
      fun x hx => hstat x (List.mem_cons_of_mem _ hx)
    have hsub1 : ∀ x ∈ rest, env.stat x = some true → x ≠ "." → x ≠ ".." →
        ∀ s, ∃ k s1, recur x s = .ret k s1 :=
      fun x hx => hsub x (List.mem_cons_of_mem _ hx)
    cases hs : env.stat e with
    | none => exact absurd hs (hstat e (List.mem_cons_self _ _))
    | some isdir =>
      cases isdir
      · obtain ⟨k, st1, hc, hk⟩ := check_file_returns env e st count
        obtain ⟨ks, st2, hr, hle, hlen⟩ := ih st1 hstat1 hsub1
        refine ⟨k :: ks, st2, by simp [direct_file_results, hs, hc, hr], ?_, ?_⟩
        · intro x hx
          rcases List.mem_cons.mp hx with rfl | hx
          · exact hk
          · exact hle x hx
        · simp [List.filter_cons, hs, hlen]
      · by_cases hdot : e = "." ∨ e = ".."
        · obtain ⟨ks, st2, hr, hle, hlen⟩ := ih st hstat1 hsub1
          exact ⟨ks, st2, by simp [direct_file_results, hs, hdot, hr], hle,
            by simp [List.filter_cons, hs, hlen]⟩
        · have hne : e ≠ "." ∧ e ≠ ".." := by
            constructor
            · exact fun h => hdot (Or.inl h)
            · exact fun h => hdot (Or.inr h)
          obtain ⟨k, s1, hk⟩ := hsub e (List.mem_cons_self _ _) hs hne.1 hne.2 st
          obtain ⟨ks, st2, hr, hle, hlen⟩ := ih s1 hstat1 hsub1
          exact ⟨ks, st2, by simp [direct_file_results, hs, hdot, hk, hr], hle,
            by simp [List.filter_cons, hs, hlen]⟩

/-- `check_directory` in terms of the reference traversal, in every case. -/
theorem check_directory_eq_results (env : Env) (fuel : Nat) (root : String) (st : State)
    (options : Options) :
    check_directory env (fuel + 1) root st options
      = match env.opendir root with
        | none => .ret 0 st
        | some entries =>
          match direct_file_results env
              (fun d_name st1 => check_directory env fuel d_name st1 options)
              options entries st with
          | .ret ks st1 => .ret (ks.sum % SIZE_MODULUS) st1
          | .exit h => .exit h
          | .out_of_fuel => .out_of_fuel := by
  cases ho : env.opendir root with
  | none => simp [check_directory, ho]
  | some entries =>
    simp only [check_directory, ho]
    rw [readdir_loop_eq_results _ _ _ _ _ _ (by unfold SIZE_MODULUS; positivity)]
    simp

/-- `check_directory` returns when the entries of `root` can be statted and
the recursive calls return. -/
theorem check_directory_returns (env : Env) (fuel : Nat) (root : String) (st : State)
    (count : Bool) (entries : List String)
    (hopen : env.opendir root = some entries)
    (hstat : ∀ e ∈ entries, env.stat e ≠ none)
    (hsub : ∀ e ∈ entries, env.stat e = some true → e ≠ "." → e ≠ ".." →
      ∀ s, ∃ k s1, check_directory env fuel e s ⟨count, false⟩ = .ret k s1) :
    ∃ n st1, check_directory env (fuel + 1) root st ⟨count, false⟩ = .ret n st1 := by
  obtain ⟨ks, st1, hr, -, -⟩ := direct_file_results_returns env
    (fun d_name st1 => check_directory env fuel d_name st1 ⟨count, false⟩)
    count entries st hstat hsub
  exact ⟨ks.sum % SIZE_MODULUS, st1, by rw [check_directory_eq_results]; simp [hopen, hr]⟩

/-- Enough fuel gives a result: when every enumerated entry can be statted and
a rank decreases from a directory to each of its subdirectories other than "."
and "..", `check_directory` with `quiet` unset returns for every fuel above
the rank of its root. -/
theorem check_directory_returns_of_rank (env : Env) (rank : String → Nat) (count : Bool)
    (hstat : ∀ r es, env.opendir r = some es → ∀ e ∈ es, env.stat e ≠ none)
    (hrank : ∀ r es, env.opendir r = some es → ∀ e ∈ es, env.stat e = some true →
      e ≠ "." → e ≠ ".." → rank e < rank r)
    (fuel : Nat) (root : String) (st : State) (hfuel : rank root < fuel) :
    ∃ n st1, check_directory env fuel root st ⟨count, false⟩ = .ret n st1 := by
  induction fuel generalizing root st with
  | zero => omega
  | succ fuel ih =>
    cases ho : env.opendir root with
    | none => exact ⟨0, st, by simp [check_directory, ho]⟩
    | some es =>
      refine check_directory_returns env fuel root st count es ho (hstat root es ho) ?_
      intro e he hs h1 h2 s
      have := hrank root es ho e he hs h1 h2
      exact ih e s (by omega)


/-! ## Lemmas on exits and on output in quiet mode -/

/-- The loop over `pre ++ post` is the loop over `pre` followed, when that
returns, by the loop over `post` from the count and state reached. -/
theorem readdir_loop_append (env : Env) (recur : String → State → Outcome Nat)
    (options : Options) (pre post : List String) (acc : Nat) (st : State) :
    readdir_loop env recur options (pre ++ post) acc st
      = match readdir_loop env recur options pre acc st with
        | .ret n s => readdir_loop env recur options post n s
        | .exit h => .exit h
        | .out_of_fuel => .out_of_fuel := by
  induction pre generalizing acc st with
  | nil => simp [readdir_loop]
  | cons e rest ih =>
    cases hs : env.stat e with
    | none => simp [readdir_loop, is_directory, hs]
    | some isdir =>
      cases isdir
      · cases hc : check_file env e st options with
        | exit h => simp [readdir_loop, is_directory, hs, hc]
        | out_of_fuel => simp [readdir_loop, is_directory, hs, hc]
        | ret k st1 => simp [readdir_loop, is_directory, hs, hc, ih]
      · by_cases hdot : (streq e "." || streq e "..") = true
        · simp [readdir_loop, is_directory, hs, hdot, ih]
        · cases hr : recur e st with
          | exit h => simp [readdir_loop, is_directory, hs, hdot, hr]
          | out_of_fuel => simp [readdir_loop, is_directory, hs, hdot, hr]
          | ret k st1 => simp [readdir_loop, is_directory, hs, hdot, hr, ih]

/-- The loop of `main` over `pre ++ post`, likewise. -/
theorem path_loop_append (env : Env) (fuel : Nat) (options : Options)
    (pre post : List String) (total : Int) (st : State) :
    path_loop env fuel options (pre ++ post) total st
      = match path_loop env fuel options pre total st with
        | .ret t s => path_loop env fuel options post t s
        | .exit h => .exit h
        | .out_of_fuel => .out_of_fuel := by
  induction pre generalizing total st with
  | nil => simp [path_loop]
  | cons p rest ih =>
    cases hc : check_directory env fuel p st options with
    | exit h => simp [path_loop, hc]
    | out_of_fuel => simp [path_loop, hc]
    | ret k st1 => simp [path_loop, hc, ih]

/-- A call of `check_file` that returns with `quiet` set has written nothing. -/
theorem check_file_quiet_silent (env : Env) (p : String) (st s : State) (count : Bool)
    (n : Nat) (h : check_file env p st ⟨count, true⟩ = .ret n s) :
    s.stdout = st.stdout ∧ s.stderr = st.stderr := by
  unfold check_file at h
  cases hd : env.hash_from_file p with
  | none =>
    simp only [hd] at h
    cases h
    exact ⟨rfl, rfl⟩
  | some d =>
    cases hs : table_search st.checksums d with
    | none =>
      simp only [hd, hs] at h
      cases h
      exact ⟨rfl, rfl⟩
    | some v => simp [hd, hs] at h

/-- The loop of `check_directory` with `quiet` set writes nothing when the
recursive calls write nothing. -/
theorem readdir_loop_quiet_silent (env : Env) (recur : String → State → Outcome Nat)
    (count : Bool)
    (hrec : ∀ e st n s, recur e st = .ret n s → s.stdout = st.stdout ∧ s.stderr = st.stderr)
    (entries : List String) (acc : Nat) (st s : State) (n : Nat)
    (h : readdir_loop env recur ⟨count, true⟩ entries acc st = .ret n s) :
    s.stdout = st.stdout ∧ s.stderr = st.stderr := by
  induction entries generalizing acc st with
  | nil =>
    simp only [readdir_loop] at h
    cases h
    exact ⟨rfl, rfl⟩
  | cons e rest ih =>
    cases hs : env.stat e with
    | none => simp [readdir_loop, is_directory, hs] at h
    | some isdir =>
      cases isdir
      · cases hc : check_file env e st ⟨count, true⟩ with
        | exit h1 => simp [readdir_loop, is_directory, hs, hc] at h
        | out_of_fuel => simp [readdir_loop, is_directory, hs, hc] at h
        | ret k st1 =>
          simp only [readdir_loop, is_directory, hs, hc, Bool.not_false, if_true] at h
          obtain ⟨h1, h2⟩ := check_file_quiet_silent env e st st1 count k hc
          obtain ⟨h3, h4⟩ := ih _ st1 h
          exact ⟨h3.trans h1, h4.trans h2⟩
      · by_cases hdot : (streq e "." || streq e "..") = true
        · simp only [readdir_loop, is_directory, hs, hdot, Bool.not_true, if_true] at h
          exact ih _ st (by simpa using h)
        · cases hr : recur e st with
          | exit h1 => simp [readdir_loop, is_directory, hs, hdot, hr] at h
          | out_of_fuel => simp [readdir_loop, is_directory, hs, hdot, hr] at h
          | ret k st1 =>
            simp [readdir_loop, is_directory, hs, hdot, hr] at h
            obtain ⟨h1, h2⟩ := hrec e st k st1 hr
            obtain ⟨h3, h4⟩ := ih _ st1 h
            exact ⟨h3.trans h1, h4.trans h2⟩

/-- A call of `check_directory` that returns with `quiet` set has written
nothing. -/
theorem check_directory_quiet_silent (env : Env) (count : Bool) (fuel : Nat)
    (root : String) (st s : State) (n : Nat)
    (h : check_directory env fuel root st ⟨count, true⟩ = .ret n s) :
    s.stdout = st.stdout ∧ s.stderr = st.stderr := by
  induction fuel generalizing root st s n with
  | zero => simp [check_directory] at h
  | succ fuel ih =>
    cases ho : env.opendir root with
    | none =>
      simp only [check_directory, ho] at h
      cases h
      exact ⟨rfl, rfl⟩
    | some entries =>
      simp only [check_directory, ho] at h
      exact readdir_loop_quiet_silent env _ count (fun e st1 n1 s1 h1 => ih e st1 s1 n1 h1)
        entries 0 st s n h

/-- The loop of `main` over its paths writes nothing with `quiet` set. -/
theorem path_loop_quiet_silent (env : Env) (count : Bool) (fuel : Nat)
    (paths : List String) (total t : Int) (st s : State)
    (h : path_loop env fuel ⟨count, true⟩ paths total st = .ret t s) :
    s.stdout = st.stdout ∧ s.stderr = st.stderr := by
  induction paths generalizing total st with
  | nil =>
    simp only [path_loop] at h
    cases h
    exact ⟨rfl, rfl⟩
  | cons p rest ih =>
    cases hc : check_directory env fuel p st ⟨count, true⟩ with
    | exit h1 => simp [path_loop, hc] at h
    | out_of_fuel => simp [path_loop, hc] at h
    | ret k st1 =>
      simp only [path_loop, hc] at h
      obtain ⟨h1, h2⟩ := check_directory_quiet_silent env count fuel p st st1 k hc
      obtain ⟨h3, h4⟩ := ih _ st1 h
      exact ⟨h3.trans h1, h4.trans h2⟩

/-- The flag loop hands back the state it was given. -/
theorem flag_loop_ret_state (PROGRAM_NAME : String) (st s : State) (l : List String)
    (carg qarg : Bool) (count : Nat) (r : Bool × Bool × Nat)
    (h : flag_loop PROGRAM_NAME st l carg qarg count = .ret r s) : s = st := by
  induction l generalizing carg qarg count with
  | nil =>
    simp only [flag_loop] at h
    cases h
    rfl
  | cons a rest ih =>
    unfold flag_loop at h
    split at h
    · exact ih _ _ _ h
    · split at h
      · exact ih _ _ _ h
      · split at h
        · simp [usage] at h
        · exact ih _ _ _ h

/-- With `quiet` set, between the start of a scan and the moment it hands an
entry to `check_file` nothing is written. -/
theorem reaches_quiet_silent (env : Env) (count : Bool) (b : String) (st : State)
    (fuel : Nat) (root : String) (st0 : State)
    (h : Reaches env ⟨count, true⟩ b st fuel root st0) :
    st.stdout = st0.stdout ∧ st.stderr = st0.stderr := by
  induction h with
  | direct fuel root pre rest st0 n _ _ hpre =>
    exact readdir_loop_quiet_silent env _ count
      (fun e st1 n1 s1 h1 => check_directory_quiet_silent env count fuel e st1 s1 n1 h1)
      pre 0 st0 st n hpre
  | nested fuel root pre rest sub st0 s n _ _ _ _ hpre _ ih =>
    obtain ⟨h1, h2⟩ := readdir_loop_quiet_silent env _ count
      (fun e st1 n1 s1 h1 => check_directory_quiet_silent env count fuel e st1 s1 n1 h1)
      pre 0 st0 s n hpre
    exact ⟨ih.1.trans h1, ih.2.trans h2⟩

/-- An exit at an entry handed to `check_file` ends the scan that reaches it,
from whatever depth, with the same status and output. -/
theorem reaches_exit (env : Env) (options : Options) (b : String) (st : State) (hlt : Halt)
    (hb : check_file env b st options = .exit hlt)
    (fuel : Nat) (root : String) (st0 : State)
    (h : Reaches env options b st fuel root st0) :
    check_directory env fuel root st0 options = .exit hlt := by
  induction h with
  | direct fuel root pre rest st0 n hopen hstat hpre =>
    simp only [check_directory, hopen]
    rw [readdir_loop_append, hpre]
    simp [readdir_loop, is_directory, hstat, hb]
  | nested fuel root pre rest sub st0 s n hopen hstat h1 h2 hpre _ ih =>
    have hdot : (streq sub "." || streq sub "..") = false := by
      simp [streq, h1, h2]
    simp only [check_directory, hopen]
    rw [readdir_loop_append, hpre]
    simp [readdir_loop, is_directory, hstat, hdot, ih]

/-! ## The claims -/

/-- C1 (count correctness) does not hold of the code.  Three runs in count-only
mode, each printing a total other than `(N - 1) + (M - 1)`.
(1) `duplicates -c dirA` over `dirA` = x.txt, y.txt (hello), z.txt (world),
where the total should be 1: the path handed to `check_directory` is "-c", and
"0" is printed.  (2) `duplicates -c dirA -c`: `dirA` is scanned, the bare name
`x.txt` cannot be statted from the working directory, and the process exits
with status 1 before printing anything.  (3) `duplicates -c . -c` over a, b
and sub/a, sub/b (N = 2, M = 2, total 2): the two duplicates are met inside
`sub`, the result of the recursive call is dropped, and "0" is printed. -/
theorem count_mode_total_wrong :
    main env_parent 2 "duplicates" ["-c", "dirA"] = some ⟨EXIT_SUCCESS, ["0"], []⟩
      ∧ main env_parent 2 "duplicates" ["-c", "dirA", "-c"] = some ⟨1, [], []⟩
      ∧ main env_nested 2 "duplicates" ["-c", ".", "-c"] = some ⟨EXIT_SUCCESS, ["0"], []⟩
      ∧ check_directory env_nested 1 "sub"
          ⟨[(MD5_hello, "a"), (MD5_world, "b")], [], []⟩ ⟨true, false⟩
          = .ret 2 ⟨[(MD5_hello, "a"), (MD5_world, "b")], [], []⟩ := by
  decide

/-- C2 (first-seen invariant of the digest table): starting from an empty
table, any sequence of `check_file` calls with `quiet` unset returns, and
afterwards the table holds at most one entry per digest; for every digest the
table answers with the first path of the sequence that produced it (and with
nothing when no path did); every path that was hashed has its digest in the
table; and however the sequence is continued, an entry once stored is still
the answer for its digest. -/
theorem check_file_first_seen (env : Env) (count : Bool) (paths : List String)
    (out err : List String) :
    ∃ ns st, check_file_seq env ⟨count, false⟩ paths ⟨table_create, out, err⟩ = .ret ns st
      ∧ (st.checksums.map Prod.fst).Nodup
      ∧ (∀ d, table_search st.checksums d
            = paths.find? (fun p => env.hash_from_file p == some d))
      ∧ (∀ p ∈ paths, ∀ d, env.hash_from_file p = some d →
            ∃ a, table_search st.checksums d = some a ∧ a ∈ paths
              ∧ env.hash_from_file a = some d)
      ∧ (∀ more, ∃ ns2 st2,
            check_file_seq env ⟨count, false⟩ (paths ++ more) ⟨table_create, out, err⟩
              = .ret ns2 st2
            ∧ ∀ d a, table_search st.checksums d = some a →
                table_search st2.checksums d = some a) := by
  have h0 : FirstSeen env [] (⟨table_create, out, err⟩ : State).checksums := by
    refine ⟨by simp [table_create], fun d => ?_⟩
    simp [table_create, table_search, first_with_digest]
  obtain ⟨ns, st, hrun, hnd, hfs⟩ := check_file_seq_first_seen env count paths [] _ h0
  simp only [List.nil_append] at hfs
  refine ⟨ns, st, hrun, hnd, hfs, ?_, ?_⟩
  · intro p hp d hd
    have hsome : (paths.find? (fun q => env.hash_from_file q == some d)).isSome := by
      rw [List.find?_isSome]
      exact ⟨p, hp, by simp [hd]⟩
    obtain ⟨a, ha⟩ := Option.isSome_iff_exists.mp hsome
    refine ⟨a, ?_, List.mem_of_find?_eq_some ha, ?_⟩
    · rw [hfs d]; exact ha
    · simpa using List.find?_some ha
  · intro more
    obtain ⟨ns2, st2, hrun2, -, hfs2⟩ :=
      check_file_seq_first_seen env count (paths ++ more) [] _ h0
    simp only [List.nil_append] at hfs2
    refine ⟨ns2, st2, hrun2, ?_⟩
    intro d a ha
    rw [hfs d] at ha
    rw [hfs2 d]
    unfold first_with_digest at ha ⊢
    rw [List.find?_append, ha]
    rfl

/-- C3 (verbose association): when the digest of `b` is already in the table
with stored path `a`, `check_file` with `quiet` and `count` both unset writes
exactly `a` to standard output, returns 1 and leaves the table as it was; with
`count` set and `quiet` unset it returns 1 and changes nothing. -/
theorem check_file_verbose_association (env : Env) (a b d : String) (st : State)
    (hd : env.hash_from_file b = some d)
    (ha : table_search st.checksums d = some a) :
    check_file env b st ⟨false, false⟩
        = .ret 1 ⟨st.checksums, st.stdout ++ [a], st.stderr⟩
      ∧ check_file env b st ⟨true, false⟩ = .ret 1 st := by
  constructor <;> simp [check_file, hd, ha]

/-- Witness for C3: `y.txt` classified after `x.txt`, both of content hello. -/
theorem check_file_verbose_association_witness :
    env_inside.hash_from_file "y.txt" = some MD5_hello
      ∧ table_search [(MD5_hello, "x.txt")] MD5_hello = some "x.txt"
      ∧ check_file env_inside "y.txt" ⟨[(MD5_hello, "x.txt")], [], []⟩ ⟨false, false⟩
          = .ret 1 ⟨[(MD5_hello, "x.txt")], ["x.txt"], []⟩
      ∧ check_file env_inside "y.txt" ⟨[(MD5_hello, "x.txt")], [], []⟩ ⟨true, false⟩
          = .ret 1 ⟨[(MD5_hello, "x.txt")], [], []⟩ :=
  ⟨by decide, by decide,
    check_file_verbose_association env_inside "x.txt" "y.txt" MD5_hello
      ⟨[(MD5_hello, "x.txt")], [], []⟩ (by decide) (by decide)⟩


/-- C4 (quiet mode signals through the exit status) does not hold of the code.
With `-q` set, a run that meets a duplicate (`x.txt`, `y.txt` of equal
content) ends through `exit(1)` in `check_file`, and a run that completes
without meeting one ends through `return EXIT_FAILURE`, which is 1 as well:
the two statuses are equal.  This holds for `duplicates -q . -q`, where "." is
scanned, and for `duplicates -q .`, where only "-q" is.  The usage text, shown
by `-h`, documents status 0 for a duplicate. -/
theorem quiet_status_does_not_tell :
    main env_inside 1 "duplicates" ["-q", ".", "-q"] = some ⟨1, [], []⟩
      ∧ main env_distinct 1 "duplicates" ["-q", ".", "-q"] = some ⟨1, [], []⟩
      ∧ main env_inside 1 "duplicates" ["-q", "."] = some ⟨1, [], []⟩
      ∧ main env_distinct 1 "duplicates" ["-q", "."] = some ⟨1, [], []⟩
      ∧ EXIT_FAILURE = 1
      ∧ main env_inside 1 "duplicates" ["-h", "."]
          = some ⟨0, [],
              ["Usage: duplicates paths...\n",
               "    -c     Only display total number of duplicates\n",
               "    -q     Do not write anything (exit with 0 if duplicate found)\n"]⟩ := by
  decide

/-- C5 (quiet precedence): when the digest of `b` is already in the table,
`check_file` with `quiet` set stops the process with status 1, the status of
a duplicate, whether or not `count` is set, and writes nothing.  The loop of
`check_directory` that comes to `b` after any entries before it exits there,
whatever entries follow.  A scan that hands `b` to `check_file`, directly or
at any depth below subdirectories, exits with status 1 and exactly the output
it started with: the exit passes through every enclosing recursive call.  The
loop of `main` exits at the path whose scan reaches `b`, whatever paths
follow, and `main` then stops with status 1 and no output at all: no later
path is scanned and no count summary is printed. -/
theorem check_file_quiet_precedence (env : Env) (a b d : String) (st : State) (count : Bool)
    (hd : env.hash_from_file b = some d)
    (ha : table_search st.checksums d = some a) :
    check_file env b st ⟨count, true⟩ = .exit ⟨1, st.stdout, st.stderr⟩
      ∧ (∀ recur pre rest acc st0 n, env.stat b = some false →
          readdir_loop env recur ⟨count, true⟩ pre acc st0 = .ret n st →
          readdir_loop env recur ⟨count, true⟩ (pre ++ b :: rest) acc st0
            = .exit ⟨1, st.stdout, st.stderr⟩)
      ∧ (∀ fuel root st0, Reaches env ⟨count, true⟩ b st fuel root st0 →
          check_directory env fuel root st0 ⟨count, true⟩
            = .exit ⟨1, st0.stdout, st0.stderr⟩)
      ∧ (∀ fuel pre p later total0 st0 total s,
          path_loop env fuel ⟨count, true⟩ pre total0 st0 = .ret total s →
          Reaches env ⟨count, true⟩ b st fuel p s →
          path_loop env fuel ⟨count, true⟩ (pre ++ p :: later) total0 st0
            = .exit ⟨1, st0.stdout, st0.stderr⟩)
      ∧ (∀ fuel PROGRAM_NAME args count0 s1 pre p later total s,
          flag_loop PROGRAM_NAME ⟨[], [], []⟩ (args.take (args.length - 1)) false false 0
            = .ret (count, true, count0) s1 →
          main_paths args count0 = pre ++ p :: later →
          path_loop env fuel ⟨count, true⟩ pre 0 ⟨table_create, [], []⟩ = .ret total s →
          Reaches env ⟨count, true⟩ b st fuel p s →
          main env fuel PROGRAM_NAME args = some ⟨1, [], []⟩) := by
  have h1 : check_file env b st ⟨count, true⟩ = .exit ⟨1, st.stdout, st.stderr⟩ := by
    simp [check_file, hd, ha]
  have h3 : ∀ fuel root st0, Reaches env ⟨count, true⟩ b st fuel root st0 →
      check_directory env fuel root st0 ⟨count, true⟩
        = .exit ⟨1, st0.stdout, st0.stderr⟩ := by
    intro fuel root st0 hr
    obtain ⟨e1, e2⟩ := reaches_quiet_silent env count b st fuel root st0 hr
    rw [← e1, ← e2]
    exact reaches_exit env _ b st _ h1 fuel root st0 hr
  have h4 : ∀ fuel pre p later total0 st0 total s,
      path_loop env fuel ⟨count, true⟩ pre total0 st0 = .ret total s →
      Reaches env ⟨count, true⟩ b st fuel p s →
      path_loop env fuel ⟨count, true⟩ (pre ++ p :: later) total0 st0
        = .exit ⟨1, st0.stdout, st0.stderr⟩ := by
    intro fuel pre p later total0 st0 total s hpre hr
    obtain ⟨e1, e2⟩ := path_loop_quiet_silent env count fuel pre total0 total st0 s hpre
    rw [path_loop_append, hpre]
    simp [path_loop, h3 fuel p s hr, e1, e2]
  refine ⟨h1, ?_, h3, h4, ?_⟩
  · intro recur pre rest acc st0 n hs hpre
    rw [readdir_loop_append, hpre]
    simp [readdir_loop, is_directory, hs, h1]
  · intro fuel PROGRAM_NAME args count0 s1 pre p later total s hflag hpaths hpre hr
    have hs1 := flag_loop_ret_state _ _ _ _ _ _ _ _ hflag
    subst hs1
    have h5 := h4 fuel pre p later 0 ⟨table_create, [], []⟩ total s hpre hr
    simp only [main, hflag, hpaths]
    rw [h5]

/-- Witness for C5, with both `-c` and `-q` set.  In `duplicates -c -q . . y z`
the paths are "-c", "-q", "." and "."; the scan of the first "." reaches
`y.txt` after `x.txt`, the process stops with status 1 and no output, the
second "." is not scanned and no summary is printed.  The scan of "." exits
where the same scan of a directory without a duplicate returns.  In the
nested directory the duplicate `a` is met inside `sub` and the exit passes
through the enclosing call on ".". -/
theorem check_file_quiet_precedence_witness :
    env_inside.hash_from_file "y.txt" = some MD5_hello
      ∧ table_search [(MD5_hello, "x.txt")] MD5_hello = some "x.txt"
      ∧ check_file env_inside "y.txt" ⟨[(MD5_hello, "x.txt")], [], []⟩ ⟨true, true⟩
          = .exit ⟨1, [], []⟩
      ∧ main_paths ["-c", "-q", ".", ".", "y", "z"] 2 = ["-c", "-q", ".", "."]
      ∧ main env_inside 1 "duplicates" ["-c", "-q", ".", ".", "y", "z"] = some ⟨1, [], []⟩
      ∧ check_directory env_inside 1 "." ⟨[], [], []⟩ ⟨true, true⟩ = .exit ⟨1, [], []⟩
      ∧ check_directory env_distinct 1 "." ⟨[], [], []⟩ ⟨true, true⟩
          = .ret 0 ⟨[(MD5_hello, "p.txt"), (MD5_world, "q.txt")], [], []⟩
      ∧ env_nested.hash_from_file "a" = some MD5_hello
      ∧ table_search [(MD5_hello, "a"), (MD5_world, "b")] MD5_hello = some "a"
      ∧ check_directory env_nested 2 "." ⟨[], [], []⟩ ⟨true, true⟩ = .exit ⟨1, [], []⟩ := by
  have hr : Reaches env_inside ⟨true, true⟩ "y.txt" ⟨[(MD5_hello, "x.txt")], [], []⟩
      1 "." ⟨[], [], []⟩ :=
    Reaches.direct 0 "." [".", "..", "x.txt"] ["z.txt"] ⟨[], [], []⟩ 0
      (by decide) (by decide) (by decide)
  have hn : Reaches env_nested ⟨true, true⟩ "a" ⟨[(MD5_hello, "a"), (MD5_world, "b")], [], []⟩
      2 "." ⟨[], [], []⟩ :=
    Reaches.nested 1 "." [".", "..", "a", "b"] [] "sub" ⟨[], [], []⟩
      ⟨[(MD5_hello, "a"), (MD5_world, "b")], [], []⟩ 0
      (by decide) (by decide) (by decide) (by decide) (by decide)
      (Reaches.direct 0 "sub" [".", ".."] ["b"]
        ⟨[(MD5_hello, "a"), (MD5_world, "b")], [], []⟩ 0
        (by decide) (by decide) (by decide))
  have hi := check_file_quiet_precedence env_inside "x.txt" "y.txt" MD5_hello
    ⟨[(MD5_hello, "x.txt")], [], []⟩ true (by decide) (by decide)
  have hj := check_file_quiet_precedence env_nested "a" "a" MD5_hello
    ⟨[(MD5_hello, "a"), (MD5_world, "b")], [], []⟩ true (by decide) (by decide)
  exact ⟨by decide, by decide, hi.1, by decide,
    hi.2.2.2.2 1 "duplicates" ["-c", "-q", ".", ".", "y", "z"] 2 ⟨[], [], []⟩
      ["-c", "-q"] "." ["."] 0 ⟨[], [], []⟩ (by decide) (by decide) (by decide) hr,
    hi.2.2.1 1 "." ⟨[], [], []⟩ hr,
    by decide, by decide, by decide,
    hj.2.2.1 2 "." ⟨[], [], []⟩ hn⟩

/-- C6 (skip on unreadable): for a path whose hashing fails, whatever the
table and the options, `check_file` returns 0 with the state unchanged: the
table is the same (the path is not inserted), nothing is written, the process
goes on.  In `check_directory`, such an entry handed to `check_file` (it was
statted and is no directory) leaves count and state as they were, and the loop
continues with the remaining entries. -/
theorem check_file_skip_unreadable (env : Env) (p : String) (st : State) (options : Options)
    (hd : env.hash_from_file p = none) :
    check_file env p st options = .ret 0 st
      ∧ (∀ recur rest dups_count, env.stat p = some false → dups_count < SIZE_MODULUS →
          readdir_loop env recur options (p :: rest) dups_count st
            = readdir_loop env recur options rest dups_count st) := by
  have h1 : check_file env p st options = .ret 0 st := by
    simp [check_file, hd]
  refine ⟨h1, ?_⟩
  intro recur rest dups_count hs hlt
  simp [readdir_loop, is_directory, hs, h1, Nat.mod_eq_of_lt hlt]

/-- Witness for C6: the unreadable file `locked` is passed over, and the run
goes on to classify `x.txt` and `y.txt` and reports the duplicate. -/
theorem check_file_skip_unreadable_witness :
    env_locked.hash_from_file "locked" = none
      ∧ check_file env_locked "locked" ⟨[], [], []⟩ ⟨false, false⟩ = .ret 0 ⟨[], [], []⟩
      ∧ (∀ recur : String → State → Outcome Nat,
          readdir_loop env_locked recur ⟨false, false⟩ ["locked", "x.txt", "y.txt"] 0
              ⟨[], [], []⟩
            = readdir_loop env_locked recur ⟨false, false⟩ ["x.txt", "y.txt"] 0
                ⟨[], [], []⟩)
      ∧ check_directory env_locked 1 "." ⟨[], [], []⟩ ⟨false, false⟩
          = .ret 1 ⟨[(MD5_hello, "x.txt")], ["x.txt"], []⟩ :=
  ⟨by decide,
    (check_file_skip_unreadable env_locked "locked" ⟨[], [], []⟩ ⟨false, false⟩
      (by decide)).1,
    fun recur =>
      (check_file_skip_unreadable env_locked "locked" ⟨[], [], []⟩ ⟨false, false⟩
        (by decide)).2 recur ["x.txt", "y.txt"] 0 (by decide) (by decide),
    by decide⟩

/-- C7 (a stat failure is fatal exactly for a top-level argument) does not
hold of the code, which does the reverse.  `main` never stats its arguments:
in `duplicates missing .` the argument `missing` cannot be statted, yet the
run goes on to scan "." and reports the duplicate there, and in count-only
mode (`duplicates -c missing . -c`) such a run ends with success status.  An
entry met during descent that cannot be statted, `gone`, ends the process
with status 1 through `is_directory`, before its siblings `x.txt` and `y.txt`
are classified; so does `x.txt` below `dirA`, whose bare name does not
resolve from the working directory. -/
theorem stat_failure_fatality_reversed :
    env_inside.stat "missing" = none
      ∧ main env_inside 1 "duplicates" ["missing", "."] = some ⟨EXIT_FAILURE, ["x.txt"], []⟩
      ∧ main env_inside 1 "duplicates" ["-c", "missing", ".", "-c"]
          = some ⟨EXIT_SUCCESS, ["1"], []⟩
      ∧ env_vanish.stat "gone" = none
      ∧ check_directory env_vanish 1 "." ⟨[], [], []⟩ ⟨false, false⟩ = .exit ⟨1, [], []⟩
      ∧ main env_vanish 1 "duplicates" ["."] = some ⟨1, [], []⟩
      ∧ main env_parent 1 "duplicates" ["dirA"] = some ⟨1, [], []⟩ := by
  decide

/-- C8 (path arguments are the non-flag arguments, in order) does not hold of
the code.  The flag loop stops one argument short of the end, and `paths` is
filled with the first `length - count` arguments, flags included.  For
`duplicates -c dirA` the flag is counted and the path handed on is "-c", not
"dirA"; for `duplicates dirA -c` the flag is never looked at, `count` stays
unset and "-c" is handed on as a path. -/
theorem main_paths_not_claimed_paths :
    flag_loop "duplicates" ⟨[], [], []⟩ (["-c", "dirA"].take (2 - 1)) false false 0
        = .ret (true, false, 1) ⟨[], [], []⟩
      ∧ main_paths ["-c", "dirA"] 1 = ["-c"]
      ∧ claimed_paths ["-c", "dirA"] = ["dirA"]
      ∧ flag_loop "duplicates" ⟨[], [], []⟩ (["dirA", "-c"].take (2 - 1)) false false 0
          = .ret (false, false, 0) ⟨[], [], []⟩
      ∧ main_paths ["dirA", "-c"] 0 = ["dirA", "-c"]
      ∧ claimed_paths ["dirA", "-c"] = ["dirA"]
      ∧ main env_inside 1 "duplicates" ["-c", "."] = some ⟨EXIT_SUCCESS, ["0"], []⟩
      ∧ main env_inside 1 "duplicates" [".", "-c"] = some ⟨EXIT_FAILURE, ["x.txt"], []⟩ := by
  decide

/-- C9 (no duplicates in verbose mode) does not hold of the code: over a
directory of two files with different content, `duplicates .` writes nothing,
as claimed, but ends with `EXIT_FAILURE`, not with success status. -/
theorem verbose_completion_status :
    main env_distinct 1 "duplicates" ["."] = some ⟨EXIT_FAILURE, [], []⟩
      ∧ EXIT_FAILURE ≠ EXIT_SUCCESS
      ∧ check_directory env_distinct 1 "." ⟨[], [], []⟩ ⟨false, false⟩
          = .ret 0 ⟨[(MD5_hello, "p.txt"), (MD5_world, "q.txt")], [], []⟩ := by
  decide

end Duplicates
